/-
Verification of `src/frontend/program/manage/manage_program.js` against its
natural-language specification.

Shallow embedding notes:
* A JavaScript step object (the value of one key in the parsed `steps` map)
  is modelled as an association list from field name to the field value's
  JavaScript string conversion (`ToString`).  The values appearing in a step
  are JSON numbers or strings; the script only ever uses them through `==`
  comparison against the non-numeric literals "set", "linear", "hold",
  "repeat" and through string concatenation, and on both of those the string
  conversion is a faithful abstraction.  A missing property reads as
  JavaScript `undefined`, modelled as `none`.
* `JSON.parse(response.steps)` is external to this file's code; the parsed
  steps object is modelled directly as an association list from step key to
  step object, in the object's enumeration order.
* `display_step` falls off the end of the function for an unrecognized mode,
  returning JavaScript `undefined`; this is modelled as `none`.  String
  concatenation converts `undefined` to the text "undefined" (`jsStr`).
-/
import Mathlib

namespace ManageProgram

/-- A JavaScript object whose property values are used only via `ToString`:
an association list from property name to the value's string conversion. -/
abbrev JSObj : Type := List (String × String)

/-- Property read `o[k]`: `none` models JavaScript `undefined`
(property absent).  Keys of a parsed JSON object are distinct, so taking
the first match is the object lookup.  Polymorphic so it serves both the
step objects (string values) and the steps map (object values). -/
def objGet {α : Type} (o : List (String × α)) (k : String) : Option α :=
  (o.find? (fun p => p.1 == k)).map (fun p => p.2)

/-- JavaScript string conversion applied when a value is concatenated with
a string: a present value yields its string, `undefined` yields the text
"undefined". -/
def jsStr : Option String → String
  | some s => s
  | none => "undefined"

/-- Embedding of `display_step(data)` (manage_program.js lines 1-14).
Each branch returns the source's literal string with the field values
concatenated in; no branch taken models falling off the end of the
function, i.e. returning `undefined`. -/
def display_step (data : JSObj) : Option String :=
  if objGet data "mode" == some "set" then
    some ("Set to " ++ jsStr (objGet data "temperature") ++ "&deg;C for "
      ++ jsStr (objGet data "duration") ++ " seconds")
  else if objGet data "mode" == some "linear" then
    some ("Ramp from " ++ jsStr (objGet data "start_temperature") ++ "&deg;C to "
      ++ jsStr (objGet data "end_temperature") ++ "&deg;C over "
      ++ jsStr (objGet data "duration") ++ " seconds.")
  else if objGet data "mode" == some "hold" then
    some ("Hold at " ++ jsStr (objGet data "temperature") ++ "&deg;C")
  else if objGet data "mode" == some "repeat" then
    some ("Repeat " ++ jsStr (objGet data "num_repeats") ++ " times")
  else
    none

/-- The parsed `steps` JSON object: step key to step object, in the
object's enumeration order. -/
abbrev StepData : Type := List (String × JSObj)

/-- The keys collected by the `for (var key in step_data)` loop. -/
def stepDataKeys (sd : StepData) : List String :=
  sd.map (fun p => p.1)

/-- The UTF-16 code units encoding one character, as numbers: a character
below U+10000 is one unit, anything above is a surrogate pair. -/
def utf16Units (c : Char) : List Nat :=
  if c.val.toNat < 0x10000 then [c.val.toNat]
  else
    [0xD800 + (c.val.toNat - 0x10000) / 0x400,
     0xDC00 + (c.val.toNat - 0x10000) % 0x400]

/-- A string as its sequence of UTF-16 code units, which is what
JavaScript's default string comparison looks at. -/
def jsUnits (s : String) : List Nat :=
  (s.data.map utf16Units).flatten

/-- Lexicographic less-or-equal on code-unit sequences. -/
def leUnits : List Nat → List Nat → Bool
  | [], _ => true
  | _ :: _, [] => false
  | a :: as, b :: bs =>
    if a < b then true
    else if b < a then false
    else leUnits as bs

/-- The default-comparator string order of JavaScript
`Array.prototype.sort`: lexicographic comparison of the two strings'
UTF-16 code-unit sequences. -/
def jsLe (a b : String) : Prop :=
  leUnits (jsUnits a) (jsUnits b) = true

instance : DecidableRel jsLe := fun a b => by
  unfold jsLe
  infer_instance

/-- Embedding of `step_keys.sort()`: JavaScript's default `Array.prototype.sort`
compares elements as strings, i.e. sorts the (distinct) keys into
lexicographic string order.  Any sorting algorithm produces the same
result on distinct keys under a total order, so the sort is modelled by
insertion sort under `jsLe`. -/
def sortedKeys (sd : StepData) : List String :=
  List.insertionSort jsLe (stepDataKeys sd)

/-- One iteration of the row-building loop for key `k`:
`'<tr><td>' + key + '</td><td>' + display_step(step_data[key]) + '</td></tr>'`.
The `none` lookup branch is unreachable in the loop, because every sorted
key is a key of `step_data`. -/
def rowFor (sd : StepData) (k : String) : String :=
  "<tr><td>" ++ k ++ "</td><td>"
    ++ jsStr (match objGet sd k with
              | some st => display_step st
              | none => none)
    ++ "</td></tr>"

/-- Embedding of the step-rendering part of the ready handler
(manage_program.js lines 29-39): collect the keys, sort them, and
concatenate one row per key into the `steps` string. -/
def renderSteps (sd : StepData) : String :=
  (sortedKeys sd).foldl (fun acc k => acc ++ rowFor sd k) ""

/-- Browser rendering of the one HTML character entity the script emits:
`&deg;` displays as the degree sign `°`.  This models the display step
that turns the script's output strings into what the page shows, which
is how the specification writes those strings. -/
def decodeDeg : List Char → List Char
  | '&' :: 'd' :: 'e' :: 'g' :: ';' :: rest => '°' :: decodeDeg rest
  | c :: rest => c :: decodeDeg rest
  | [] => []

/-- Entity decoding on strings. -/
def htmlDecodeDeg (s : String) : String :=
  ⟨decodeDeg s.data⟩

/-- The fields of the `GET program/{id}` success response that the script
reads.  `steps` is carried already parsed (see the header note on
`JSON.parse`). -/
structure ProgramResp where
  name : String
  driver : String
  scientist : String
  steps : StepData
  deriving DecidableEq

/-- The field of the `GET driver/{id}` success response that the script
reads. -/
structure DriverResp where
  name : String
  deriving DecidableEq

/-- The HTTP requests the script can issue, with the identifier each one
interpolates into its path. -/
inductive Request where
  | getProgram (id : String)
  | getDriver (id : String)
  | deleteProgram (id : String)
  deriving DecidableEq

/-- The method and path string of each request, exactly as the source
builds them in its `http(...)` calls. -/
def reqLine : Request → String × String
  | Request.getProgram i => ("GET", "program/" ++ i)
  | Request.getDriver i => ("GET", "driver/" ++ i)
  | Request.deleteProgram i => ("DELETE", "program/" ++ i)

/-- The events the page can observe: the document-ready firing (with the
value of the `id` URL parameter), a success callback of one of the three
requests firing (with the parsed response), and a click on the delete
control (with the answer to the confirmation prompt). -/
inductive Event where
  | ready (idParam : String)
  | programSuccess (resp : ProgramResp)
  | driverSuccess (resp : DriverResp)
  | deleteClick (confirmed : Bool)
  | deleteSuccess
  deriving DecidableEq

/-- The page-scoped state: the two globals the script assigns
(`program_id`, `scientist`; `none` = not yet assigned, i.e. the global is
still undeclared), the three DOM regions it writes (`none` = pre-render
empty), the list of issued requests in order, the browser location
(`none` = no navigation yet), and the bookkeeping of which success
callbacks are registered and not yet fired (`http` invokes a success
callback at most once; several DELETEs can be pending at once, hence a
count). -/
structure PageState where
  program_id : Option String
  scientist : Option String
  title : Option String
  driver_name : Option String
  program_details : Option String
  requests : List Request
  location : Option String
  readyDone : Bool
  programCb : Bool
  driverCb : Bool
  deleteCb : Nat
  deriving DecidableEq

/-- The state before any event: nothing assigned, nothing rendered,
nothing requested. -/
def initState : PageState :=
  { program_id := none
    scientist := none
    title := none
    driver_name := none
    program_details := none
    requests := []
    location := none
    readyDone := false
    programCb := false
    driverCb := false
    deleteCb := 0 }

/-- One event's effect on the page state, embedding the ready handler and
the callbacks it registers (manage_program.js lines 16-48).  `none` means
the event cannot occur in that state (a success callback cannot fire
before its request is issued, nor twice; ready fires once; the delegated
click handler exists only after ready). -/
def step (s : PageState) (e : Event) : Option PageState :=
  match e with
  | Event.ready idp =>
      -- program_id = get_id('id'); http('program/' + program_id, 'GET', ...);
      -- $(document.body).on('click', '#delete', ...)
      if s.readyDone then none
      else some { s with
        readyDone := true
        program_id := some idp
        requests := s.requests ++ [Request.getProgram idp]
        programCb := true }
  | Event.programSuccess r =>
      -- scientist = response['scientist']; $("#program_title").html(...);
      -- http('driver/' + response['driver'], 'GET', ...);
      -- step_data = JSON.parse(...); ...; $("#program_details").html(steps)
      if s.programCb then
        some { s with
          programCb := false
          scientist := some r.scientist
          title := some r.name
          requests := s.requests ++ [Request.getDriver r.driver]
          driverCb := true
          program_details := some (renderSteps r.steps) }
      else none
  | Event.driverSuccess r =>
      -- $("#driver_name").html("Driver: " + driver_response['name'])
      if s.driverCb then
        some { s with driverCb := false, driver_name := some ("Driver: " ++ r.name) }
      else none
  | Event.deleteClick c =>
      -- if (window.confirm(...)) { http('program/' + program_id, 'DELETE', ...) }
      if s.readyDone then
        if c then
          some { s with
            requests := s.requests ++ [Request.deleteProgram (jsStr s.program_id)]
            deleteCb := s.deleteCb + 1 }
        else some s
      else none
  | Event.deleteSuccess =>
      -- window.location.href = '/program?user=' + scientist
      if s.deleteCb ≠ 0 then
        match s.scientist with
        | some sc =>
            some { s with deleteCb := s.deleteCb - 1
                          location := some ("/program?user=" ++ sc) }
        | none =>
            -- reading the never-assigned global `scientist` throws a
            -- ReferenceError, so the navigation line does not run
            some { s with deleteCb := s.deleteCb - 1 }
      else none

/-- Run a list of events from a state; `none` if some event cannot occur
where it appears. -/
def runFrom (s : PageState) : List Event → Option PageState
  | [] => some s
  | e :: es =>
      match step s e with
      | some s2 => runFrom s2 es
      | none => none

/-- A state is reachable from page load by the given event trace. -/
def Reaches (es : List Event) (s : PageState) : Prop :=
  runFrom initState es = some s

/-! ### Trace infrastructure -/

theorem runFrom_append (a b : List Event) : ∀ s : PageState,
    runFrom s (a ++ b) =
      match runFrom s a with
      | some s2 => runFrom s2 b
      | none => none := by
  induction a with
  | nil => intro s; simp [runFrom]
  | cons e a ih =>
      intro s
      simp only [List.cons_append, runFrom]
      cases step s e with
      | none => rfl
      | some s2 => exact ih s2

theorem preserved (P : PageState → Prop)
    (hstep : ∀ s e s2, P s → step s e = some s2 → P s2) :
    ∀ (es : List Event) (s0 s : PageState), P s0 → runFrom s0 es = some s → P s := by
  intro es
  induction es with
  | nil => intro s0 s h hr; simp [runFrom] at hr; exact hr ▸ h
  | cons e es ih =>
      intro s0 s h hr
      simp only [runFrom] at hr
      cases hs : step s0 e with
      | none => rw [hs] at hr; exact absurd hr (by simp)
      | some s1 => rw [hs] at hr; exact ih s1 s (hstep s0 e s1 h hs) hr

theorem preservedAvoid (P : PageState → Prop) (bad : Event → Prop)
    (hstep : ∀ s e s2, ¬ bad e → P s → step s e = some s2 → P s2) :
    ∀ (es : List Event) (s0 s : PageState), (∀ e ∈ es, ¬ bad e) → P s0 →
      runFrom s0 es = some s → P s := by
  intro es
  induction es with
  | nil => intro s0 s _ h hr; simp [runFrom] at hr; exact hr ▸ h
  | cons e es ih =>
      intro s0 s hb h hr
      simp only [runFrom] at hr
      cases hs : step s0 e with
      | none => rw [hs] at hr; exact absurd hr (by simp)
      | some s1 =>
          rw [hs] at hr
          exact ih s1 s (fun x hx => hb x (List.mem_cons_of_mem e hx))
            (hstep s0 e s1 (hb e (List.mem_cons_self e es)) h hs) hr

theorem reaches_mem_decomp (es : List Event) (s : PageState) (e0 : Event)
    (hr : Reaches es s) (hm : e0 ∈ es) :
    ∃ (l1 l2 : List Event) (sa sb : PageState),
      es = l1 ++ e0 :: l2 ∧ Reaches l1 sa ∧ step sa e0 = some sb ∧
        runFrom sb l2 = some s := by
  obtain ⟨l1, l2, rfl⟩ := List.append_of_mem hm
  unfold Reaches at hr
  rw [runFrom_append] at hr
  cases ha : runFrom initState l1 with
  | none => rw [ha] at hr; exact absurd hr (by simp)
  | some sa =>
      rw [ha] at hr
      simp only [runFrom] at hr
      cases hb : step sa e0 with
      | none => rw [hb] at hr; exact absurd hr (by simp)
      | some sb =>
          rw [hb] at hr
          exact ⟨l1, l2, sa, sb, rfl, ha, hb, hr⟩

/-! ### Reachability invariants -/

/-- Base invariant: the program callback is only pending after ready has
fired, and before ready fires no request has been issued. -/
def BaseInv (s : PageState) : Prop :=
  (s.programCb = true → s.readyDone = true) ∧
    (s.readyDone = false → s.requests = [])

theorem step_baseInv (s : PageState) (e : Event) (s2 : PageState)
    (hP : BaseInv s) (hs : step s e = some s2) : BaseInv s2 := by
  obtain ⟨h1, h2⟩ := hP
  cases e with
  | ready idp =>
      simp only [step] at hs
      split at hs
      · exact absurd hs (by simp)
      · injection hs with h; subst h
        refine ⟨fun _ => rfl, fun h => absurd h (by simp)⟩
  | programSuccess r =>
      simp only [step] at hs
      split at hs
      · next hcb =>
          injection hs with h; subst h
          refine ⟨fun _ => h1 hcb, fun h => ?_⟩
          simp at h
          exact absurd (h1 hcb) (by simp [h])
      · exact absurd hs (by simp)
  | driverSuccess r =>
      simp only [step] at hs
      split at hs
      · injection hs with h; subst h
        exact ⟨h1, h2⟩
      · exact absurd hs (by simp)
  | deleteClick c =>
      simp only [step] at hs
      split at hs
      · next hrd =>
          cases c with
          | true =>
              simp only [if_pos rfl] at hs
              injection hs with h; subst h
              refine ⟨fun _ => hrd, fun h => ?_⟩
              simp at h
              exact absurd hrd (by simp [h])
          | false =>
              simp only [Bool.false_eq_true, if_neg] at hs
              injection hs with h; subst h
              exact ⟨h1, h2⟩
      · exact absurd hs (by simp)
  | deleteSuccess =>
      simp only [step] at hs
      split at hs
      · next hcb =>
          cases hsc : s.scientist with
          | some sc => rw [hsc] at hs; injection hs with h; subst h; exact ⟨h1, h2⟩
          | none => rw [hsc] at hs; injection hs with h; subst h; exact ⟨h1, h2⟩
      · exact absurd hs (by simp)

theorem reaches_baseInv (es : List Event) (s : PageState) (hr : Reaches es s) :
    BaseInv s :=
  preserved BaseInv step_baseInv es initState s
    ⟨fun h => absurd h (by simp [initState]), fun _ => rfl⟩ hr

/-- Everything that stays true from the moment ready fires with URL
parameter `idp`: the click handler is bound, `program_id` holds `idp`,
the program GET for `idp` was issued, and every program GET or DELETE
ever issued interpolates exactly `idp`. -/
def ReadyInv (idp : String) (s : PageState) : Prop :=
  s.readyDone = true ∧ s.program_id = some idp ∧
    Request.getProgram idp ∈ s.requests ∧
    (∀ i, Request.getProgram i ∈ s.requests → i = idp) ∧
    (∀ j, Request.deleteProgram j ∈ s.requests → j = idp)

theorem step_readyInv (idp : String) (s : PageState) (e : Event) (s2 : PageState)
    (hP : ReadyInv idp s) (hs : step s e = some s2) : ReadyInv idp s2 := by
  obtain ⟨h1, h2, h3, h4, h5⟩ := hP
  cases e with
  | ready idp2 =>
      simp only [step] at hs
      split at hs
      · exact absurd hs (by simp)
      · next hrd => exact absurd h1 (by simpa using hrd)
  | programSuccess r =>
      simp only [step] at hs
      split at hs
      · injection hs with h; subst h
        refine ⟨h1, h2, by simp [h3], ?_, ?_⟩
        · intro i hi
          simp only [List.mem_append, List.mem_singleton] at hi
          rcases hi with hi | hi
          · exact h4 i hi
          · exact absurd hi (by simp)
        · intro j hj
          simp only [List.mem_append, List.mem_singleton] at hj
          rcases hj with hj | hj
          · exact h5 j hj
          · exact absurd hj (by simp)
      · exact absurd hs (by simp)
  | driverSuccess r =>
      simp only [step] at hs
      split at hs
      · injection hs with h; subst h
        exact ⟨h1, h2, h3, h4, h5⟩
      · exact absurd hs (by simp)
  | deleteClick c =>
      simp only [step] at hs
      split at hs
      · cases c with
        | true =>
            rw [if_pos rfl] at hs
            injection hs with h; subst h
            refine ⟨h1, h2, by simp [h3], ?_, ?_⟩
            · intro i hi
              simp only [List.mem_append, List.mem_singleton] at hi
              rcases hi with hi | hi
              · exact h4 i hi
              · exact absurd hi (by simp)
            · intro j hj
              simp only [List.mem_append, List.mem_singleton] at hj
              rcases hj with hj | hj
              · exact h5 j hj
              · rw [h2] at hj
                exact Request.deleteProgram.inj hj
        | false =>
            rw [if_neg (by simp)] at hs
            injection hs with h; subst h
            exact ⟨h1, h2, h3, h4, h5⟩
      · next hrd => exact absurd h1 hrd
  | deleteSuccess =>
      simp only [step] at hs
      split at hs
      · split at hs
        · injection hs with h; subst h; exact ⟨h1, h2, h3, h4, h5⟩
        · injection hs with h; subst h; exact ⟨h1, h2, h3, h4, h5⟩
      · exact absurd hs (by simp)

theorem after_ready (es : List Event) (s : PageState) (idp : String)
    (hr : Reaches es s) (hm : Event.ready idp ∈ es) : ReadyInv idp s := by
  obtain ⟨l1, l2, sa, sb, _, hra, hstep, hrun⟩ := reaches_mem_decomp es s _ hr hm
  have hbase := reaches_baseInv l1 sa hra
  have hsb : ReadyInv idp sb := by
    simp only [step] at hstep
    split at hstep
    · exact absurd hstep (by simp)
    · next hrd =>
        have hreq : sa.requests = [] := hbase.2 (by simpa using hrd)
        injection hstep with h; subst h
        refine ⟨rfl, rfl, by simp [hreq], ?_, ?_⟩
        · intro i hi
          simp only [hreq, List.nil_append, List.mem_singleton] at hi
          exact Request.getProgram.inj hi
        · intro j hj
          simp only [hreq, List.nil_append, List.mem_singleton] at hj
          exact absurd hj (by simp)
  exact preserved (ReadyInv idp) (step_readyInv idp) l2 sb s hsb hrun

/-- Everything that stays true from the moment the program GET succeeds
with response `r`: ready has fired, the program callback is spent (so no
second program response can fire), and the `scientist` global holds
`r.scientist`. -/
def ProgInv (r : ProgramResp) (s : PageState) : Prop :=
  s.readyDone = true ∧ s.programCb = false ∧ s.scientist = some r.scientist

theorem step_progInv (r : ProgramResp) (s : PageState) (e : Event) (s2 : PageState)
    (hP : ProgInv r s) (hs : step s e = some s2) : ProgInv r s2 := by
  obtain ⟨h1, h2, h3⟩ := hP
  cases e with
  | ready idp2 =>
      simp only [step] at hs
      split at hs
      · exact absurd hs (by simp)
      · next hrd => exact absurd h1 (by simpa using hrd)
  | programSuccess r2 =>
      simp only [step] at hs
      split at hs
      · next hcb => exact absurd h2 (by simp [hcb])
      · exact absurd hs (by simp)
  | driverSuccess r2 =>
      simp only [step] at hs
      split at hs
      · injection hs with h; subst h; exact ⟨h1, h2, h3⟩
      · exact absurd hs (by simp)
  | deleteClick c =>
      simp only [step] at hs
      split at hs
      · cases c with
        | true =>
            rw [if_pos rfl] at hs
            injection hs with h; subst h
            exact ⟨h1, h2, h3⟩
        | false =>
            rw [if_neg (by simp)] at hs
            injection hs with h; subst h
            exact ⟨h1, h2, h3⟩
      · next hrd => exact absurd h1 hrd
  | deleteSuccess =>
      simp only [step] at hs
      split at hs
      · split at hs
        · injection hs with h; subst h; exact ⟨h1, h2, h3⟩
        · injection hs with h; subst h; exact ⟨h1, h2, h3⟩
      · exact absurd hs (by simp)

theorem after_programSuccess (es : List Event) (s : PageState) (r : ProgramResp)
    (hr : Reaches es s) (hm : Event.programSuccess r ∈ es) : ProgInv r s := by
  obtain ⟨l1, l2, sa, sb, _, hra, hstep, hrun⟩ := reaches_mem_decomp es s _ hr hm
  have hbase := reaches_baseInv l1 sa hra
  have hsb : ProgInv r sb := by
    simp only [step] at hstep
    split at hstep
    · next hcb =>
        injection hstep with h; subst h
        exact ⟨hbase.1 hcb, rfl, rfl⟩
    · exact absurd hstep (by simp)
  exact preserved (ProgInv r) (step_progInv r) l2 sb s hsb hrun

/-! ### The key order is total and transitive -/

theorem leUnits_total : ∀ a b : List Nat, leUnits a b = true ∨ leUnits b a = true := by
  intro a
  induction a with
  | nil => intro b; left; rfl
  | cons x as ih =>
      intro b
      cases b with
      | nil => right; rfl
      | cons y bs =>
          rcases Nat.lt_trichotomy x y with hxy | hxy | hxy
          · left; simp [leUnits, hxy]
          · subst hxy
            simp only [leUnits, Nat.lt_irrefl, if_neg, if_false]
            exact ih bs
          · right; simp [leUnits, hxy]

theorem leUnits_trans : ∀ a b c : List Nat,
    leUnits a b = true → leUnits b c = true → leUnits a c = true := by
  intro a
  induction a with
  | nil => intro b c _ _; rfl
  | cons x as ih =>
      intro b c hab hbc
      cases b with
      | nil => simp [leUnits] at hab
      | cons y bs =>
          cases c with
          | nil => simp [leUnits] at hbc
          | cons z cs =>
              simp only [leUnits] at hab hbc ⊢
              rcases Nat.lt_trichotomy x y with hxy | hxy | hxy
              · rcases Nat.lt_trichotomy y z with hyz | hyz | hyz
                · rw [if_pos (Nat.lt_trans hxy hyz)]
                · subst hyz; rw [if_pos hxy]
                · rw [if_neg (by omega), if_pos hyz] at hbc
                  exact absurd hbc (by simp)
              · subst hxy
                rw [if_neg (by omega), if_neg (by omega)] at hab
                rcases Nat.lt_trichotomy x z with hxz | hxz | hxz
                · rw [if_pos hxz]
                · subst hxz
                  rw [if_neg (by omega), if_neg (by omega)] at hbc
                  rw [if_neg (by omega), if_neg (by omega)]
                  exact ih bs cs hab hbc
                · rw [if_neg (by omega), if_pos hxz] at hbc
                  exact absurd hbc (by simp)
              · rw [if_neg (by omega), if_pos hxy] at hab
                exact absurd hab (by simp)

instance : IsTotal String jsLe :=
  ⟨fun a b => leUnits_total (jsUnits a) (jsUnits b)⟩

instance : IsTrans String jsLe :=
  ⟨fun a b c => leUnits_trans (jsUnits a) (jsUnits b) (jsUnits c)⟩

theorem sortedKeys_sorted (sd : StepData) : List.Sorted jsLe (sortedKeys sd) :=
  List.sorted_insertionSort jsLe (stepDataKeys sd)

theorem sortedKeys_perm (sd : StepData) :
    List.Perm (sortedKeys sd) (stepDataKeys sd) :=
  List.perm_insertionSort jsLe (stepDataKeys sd)

/-! ### Entity decoding lemmas -/

theorem decodeDeg_cons_ne (c : Char) (l : List Char) (h : c ≠ '&') :
    decodeDeg (c :: l) = c :: decodeDeg l := by
  conv_lhs => rw [decodeDeg.eq_def]
  split
  · next rest heq =>
      injection heq with h1 h2
      exact absurd h1 h
  · next c2 rest heq =>
      injection heq with h1 h2
      rw [h1, h2]
  · next heq => exact absurd heq (by simp)

theorem decodeDeg_append (a b : List Char) (h : '&' ∉ a) :
    decodeDeg (a ++ b) = a ++ decodeDeg b := by
  induction a with
  | nil => simp
  | cons c rest ih =>
      have hc : c ≠ '&' := fun hc => h (hc ▸ List.mem_cons_self c rest)
      have hrest : '&' ∉ rest := fun hm => h (List.mem_cons_of_mem c hm)
      rw [List.cons_append, decodeDeg_cons_ne c _ hc, ih hrest, List.cons_append]

theorem decodeDeg_no_amp (a : List Char) (h : '&' ∉ a) : decodeDeg a = a := by
  have h2 := decodeDeg_append a [] h
  simpa [show decodeDeg [] = [] from rfl] using h2

theorem decodeDeg_entity (b : List Char) :
    decodeDeg ('&' :: 'd' :: 'e' :: 'g' :: ';' :: b) = '°' :: decodeDeg b := rfl

theorem htmlDecodeDeg_append (a b : String) (h : '&' ∉ a.data) :
    htmlDecodeDeg (a ++ b) = a ++ htmlDecodeDeg b := by
  unfold htmlDecodeDeg
  rw [show (a ++ b).data = a.data ++ b.data from String.data_append a b,
    decodeDeg_append a.data b.data h]
  rfl

theorem htmlDecodeDeg_entity (b : String) :
    htmlDecodeDeg ("&deg;" ++ b) = "°" ++ htmlDecodeDeg b := by
  unfold htmlDecodeDeg
  rw [show ("&deg;" ++ b).data = '&' :: 'd' :: 'e' :: 'g' :: ';' :: b.data from
    String.data_append _ b]
  rw [decodeDeg_entity]
  rfl

theorem htmlDecodeDeg_no_amp (a : String) (h : '&' ∉ a.data) :
    htmlDecodeDeg a = a := by
  unfold htmlDecodeDeg
  rw [decodeDeg_no_amp a.data h]

/-- Decoding the `set`-mode output string: the `&deg;` entity displays as
`°`, and nothing else changes when the interpolated values contain no
ampersand (a JavaScript number's string conversion never does). -/
theorem decode_set_string (T D : String) (hT : '&' ∉ T.data) (hD : '&' ∉ D.data) :
    htmlDecodeDeg ("Set to " ++ T ++ "&deg;C for " ++ D ++ " seconds") =
      "Set to " ++ T ++ "°C for " ++ D ++ " seconds" := by
  have h1 : "Set to " ++ T ++ "&deg;C for " ++ D ++ " seconds" =
      "Set to " ++ (T ++ ("&deg;" ++ ("C for " ++ (D ++ " seconds")))) := by
    simp only [String.append_assoc]
    rw [← String.append_assoc "&deg;" "C for " (D ++ " seconds")]
    exact rfl
  rw [h1, htmlDecodeDeg_append _ _ (by decide),
    htmlDecodeDeg_append _ _ hT, htmlDecodeDeg_entity,
    htmlDecodeDeg_append _ _ (by decide),
    htmlDecodeDeg_append _ _ hD,
    htmlDecodeDeg_no_amp _ (by decide)]
  simp only [String.append_assoc]
  rw [← String.append_assoc "°" "C for " (D ++ " seconds")]
  exact rfl

/-! ### Row-concatenation lemmas -/

theorem join_cons (s : String) (l : List String) :
    String.join (s :: l) = s ++ String.join l := by
  rw [String.join_eq, String.join_eq]
  rfl

theorem foldl_append_eq_join (f : String → String) :
    ∀ (l : List String) (a : String),
      l.foldl (fun acc k => acc ++ f k) a = a ++ String.join (l.map f) := by
  intro l
  induction l with
  | nil => intro a; simp [String.join, String.append_empty]
  | cons x l ih =>
      intro a
      rw [List.foldl_cons, ih (a ++ f x), List.map_cons, join_cons,
        String.append_assoc]

/-- The row loop concatenates, in order, one row per sorted key. -/
theorem renderSteps_eq_join (sd : StepData) :
    renderSteps sd = String.join ((sortedKeys sd).map (rowFor sd)) := by
  unfold renderSteps
  rw [foldl_append_eq_join (rowFor sd) (sortedKeys sd) ""]
  rfl

/-! ### Claim theorems -/

/-- The steps map of the specification's example: keys "2", "10", "1"
with hold(T=50), set(T=30,D=5), hold(T=20). -/
def exampleSteps : StepData :=
  [("2", [("mode", "hold"), ("temperature", "50")]),
   ("10", [("mode", "set"), ("temperature", "30"), ("duration", "5")]),
   ("1", [("mode", "hold"), ("temperature", "20")])]

/-- C1: for every steps mapping, the rendered table is the concatenation
of one row per key in the default string (lexicographic, by UTF-16 code
units) sort order of the keys, and in particular for the steps map with
keys "2", "10", "1" the rows are rendered in key order "1", "10", "2" —
not numeric order. -/
theorem claim_C1 :
    (∀ sd : StepData,
      renderSteps sd = String.join ((sortedKeys sd).map (rowFor sd)) ∧
        List.Sorted jsLe (sortedKeys sd)) ∧
      sortedKeys exampleSteps = ["1", "10", "2"] ∧
      renderSteps exampleSteps =
        String.join [rowFor exampleSteps "1", rowFor exampleSteps "10",
          rowFor exampleSteps "2"] :=
  ⟨fun sd => ⟨renderSteps_eq_join sd, sortedKeys_sorted sd⟩, by decide, by decide⟩

/-- C2 counterexample: for a step whose mode is unrecognized,
`display_step` does return an undefined result, but the rendered second
cell is NOT empty: JavaScript string concatenation turns `undefined`
into the text "undefined" in the cell. -/
theorem claim_C2_counterexample :
    display_step [("mode", "bogus")] = none ∧
      renderSteps [("1", [("mode", "bogus")])] =
        "<tr><td>1</td><td>undefined</td></tr>" ∧
      renderSteps [("1", [("mode", "bogus")])] ≠
        "<tr><td>1</td><td></td></tr>" := by
  exact ⟨rfl, rfl, by decide⟩

/-- C2 amended: for every step whose mode is not one of "set", "linear",
"hold", "repeat", `display_step` returns an undefined result, and the
second cell of that step's rendered row contains the text "undefined"
(the string conversion of `undefined`), not an empty cell. -/
theorem claim_C2 (st : JSObj)
    (h : ∀ m ∈ (["set", "linear", "hold", "repeat"] : List String),
      objGet st "mode" ≠ some m) :
    display_step st = none ∧
      ∀ (sd : StepData) (k : String), objGet sd k = some st →
        rowFor sd k = "<tr><td>" ++ k ++ "</td><td>undefined</td></tr>" := by
  have h1 : display_step st = none := by
    unfold display_step
    rw [if_neg, if_neg, if_neg, if_neg]
    · simp only [beq_iff_eq]; exact h "repeat" (by simp)
    · simp only [beq_iff_eq]; exact h "hold" (by simp)
    · simp only [beq_iff_eq]; exact h "linear" (by simp)
    · simp only [beq_iff_eq]; exact h "set" (by simp)
  refine ⟨h1, fun sd k hk => ?_⟩
  unfold rowFor
  rw [hk]
  simp only [h1, jsStr]
  simp only [String.append_assoc]
  exact rfl

theorem claim_C2_witness :
    display_step [("mode", "ramp")] = none ∧
      rowFor [("9", [("mode", "ramp")])] "9" =
        "<tr><td>" ++ "9" ++ "</td><td>undefined</td></tr>" :=
  ⟨(claim_C2 [("mode", "ramp")] (by decide)).1,
    (claim_C2 [("mode", "ramp")] (by decide)).2 [("9", [("mode", "ramp")])] "9" rfl⟩

/-- C3: for every step with mode "set", temperature string T and duration
string D, `display_step` returns exactly the set-mode string with T and D
substituted verbatim; the returned string carries the `&deg;` HTML
entity, which displays as `°C`, so the displayed text is exactly
"Set to T°C for D seconds" (T and D, being JavaScript number
conversions, contain no ampersand). -/
theorem claim_C3 (st : JSObj) (T D : String)
    (hm : objGet st "mode" = some "set")
    (hT : objGet st "temperature" = some T)
    (hD : objGet st "duration" = some D)
    (hTa : '&' ∉ T.data) (hDa : '&' ∉ D.data) :
    display_step st = some ("Set to " ++ T ++ "&deg;C for " ++ D ++ " seconds") ∧
      htmlDecodeDeg ("Set to " ++ T ++ "&deg;C for " ++ D ++ " seconds") =
        "Set to " ++ T ++ "°C for " ++ D ++ " seconds" := by
  constructor
  · simp [display_step, hm, hT, hD, jsStr]
  · exact decode_set_string T D hTa hDa

theorem claim_C3_witness :
    display_step [("mode", "set"), ("temperature", "30"), ("duration", "5")] =
        some ("Set to " ++ "30" ++ "&deg;C for " ++ "5" ++ " seconds") ∧
      htmlDecodeDeg ("Set to " ++ "30" ++ "&deg;C for " ++ "5" ++ " seconds") =
        "Set to " ++ "30" ++ "°C for " ++ "5" ++ " seconds" :=
  claim_C3 [("mode", "set"), ("temperature", "30"), ("duration", "5")] "30" "5"
    rfl rfl rfl (by decide) (by decide)

/-- The mode-specific fields named by the claim for each recognized mode. -/
def relevantFields : String → List String
  | "set" => ["temperature", "duration"]
  | "linear" => ["start_temperature", "end_temperature", "duration"]
  | "hold" => ["temperature"]
  | "repeat" => ["num_repeats"]
  | _ => []

/-- C9: for each recognized mode, `display_step` depends only on that
mode's fields: two steps with the same recognized mode that agree on the
mode's fields produce identical output, whatever other fields they
carry. -/
theorem claim_C9 (m : String) (st1 st2 : JSObj)
    (hm : m ∈ (["set", "linear", "hold", "repeat"] : List String))
    (h1 : objGet st1 "mode" = some m) (h2 : objGet st2 "mode" = some m)
    (hag : ∀ f ∈ relevantFields m, objGet st1 f = objGet st2 f) :
    display_step st1 = display_step st2 := by
  simp only [List.mem_cons, List.not_mem_nil, or_false] at hm
  rcases hm with rfl | rfl | rfl | rfl
  · have ht := hag "temperature" (by simp [relevantFields])
    have hd := hag "duration" (by simp [relevantFields])
    simp [display_step, h1, h2, ht, hd]
  · have hs := hag "start_temperature" (by simp [relevantFields])
    have he := hag "end_temperature" (by simp [relevantFields])
    have hd := hag "duration" (by simp [relevantFields])
    simp [display_step, h1, h2, hs, he, hd]
  · have ht := hag "temperature" (by simp [relevantFields])
    simp [display_step, h1, h2, ht]
  · have hn := hag "num_repeats" (by simp [relevantFields])
    simp [display_step, h1, h2, hn]

theorem claim_C9_witness :
    display_step [("mode", "hold"), ("temperature", "50")] =
      display_step [("mode", "hold"), ("temperature", "50"), ("power", "9000")] :=
  claim_C9 "hold" [("mode", "hold"), ("temperature", "50")]
    [("mode", "hold"), ("temperature", "50"), ("power", "9000")]
    (by decide) rfl rfl (by decide)

/-- C5: once the page is ready (the delegated click handler exists),
clicking delete and declining the confirmation is a complete no-op: the
resulting state is exactly the state before the click, so no request is
issued, no navigation happens, and nothing else changes. -/
theorem claim_C5 (s : PageState) (h : s.readyDone = true) :
    step s (Event.deleteClick false) = some s := by
  simp [step, h]

theorem claim_C5_witness :
    step { initState with readyDone := true } (Event.deleteClick false) =
      some { initState with readyDone := true } :=
  claim_C5 { initState with readyDone := true } rfl

/-- The program response of the specification's end-to-end example. -/
def exampleProgram : ProgramResp :=
  { name := "Bake", driver := "7", scientist := "alice",
    steps := [("1", [("mode", "hold"), ("temperature", "180")])] }

/-- The state the example run of C7 ends in. -/
def exampleFinalState : PageState :=
  { program_id := some "42"
    scientist := some "alice"
    title := some "Bake"
    driver_name := some "Driver: OvenX"
    program_details := some "<tr><td>1</td><td>Hold at 180&deg;C</td></tr>"
    requests := [Request.getProgram "42", Request.getDriver "7"]
    location := none
    readyDone := true
    programCb := false
    driverCb := false
    deleteCb := 0 }

/-- C7: for the example program response (name "Bake", driver "7",
scientist "alice", one hold step at 180) and driver response "OvenX",
the title shows "Bake", the driver line shows "Driver: OvenX", and the
steps container holds exactly one row whose cell, with the `&deg;`
entity displayed, reads "Hold at 180°C". -/
theorem claim_C7 :
    ∃ s : PageState,
      runFrom initState [Event.ready "42", Event.programSuccess exampleProgram,
          Event.driverSuccess { name := "OvenX" }] = some s ∧
        s.title = some "Bake" ∧
        s.driver_name = some "Driver: OvenX" ∧
        s.program_details = some "<tr><td>1</td><td>Hold at 180&deg;C</td></tr>" ∧
        htmlDecodeDeg "<tr><td>1</td><td>Hold at 180&deg;C</td></tr>" =
          "<tr><td>1</td><td>Hold at 180°C</td></tr>" := by
  refine ⟨exampleFinalState, ?_, rfl, rfl, rfl, ?_⟩
  · decide
  · decide

/-- C8: for every steps map (with the distinct keys a JSON object has),
the rendered HTML is exactly one row per key — the sorted key list is a
duplicate-free rearrangement of the map's keys, so no key is skipped and
none is rendered twice — and each key appears verbatim as the first cell
of its row. -/
theorem claim_C8 (sd : StepData) (hnd : (stepDataKeys sd).Nodup) :
    renderSteps sd = String.join ((sortedKeys sd).map (rowFor sd)) ∧
      (sortedKeys sd).Nodup ∧
      (∀ k, k ∈ sortedKeys sd ↔ k ∈ stepDataKeys sd) ∧
      (∀ k, List.count k (sortedKeys sd) = List.count k (stepDataKeys sd)) ∧
      ∀ k, ∃ t, rowFor sd k = "<tr><td>" ++ k ++ "</td><td>" ++ t ++ "</td></tr>" := by
  refine ⟨renderSteps_eq_join sd, ?_, ?_, ?_, ?_⟩
  · exact (sortedKeys_perm sd).nodup_iff.mpr hnd
  · exact fun k => (sortedKeys_perm sd).mem_iff
  · exact fun k => (sortedKeys_perm sd).count_eq k
  · exact fun k => ⟨_, rfl⟩

theorem claim_C8_witness :
    (stepDataKeys exampleSteps).Nodup ∧
      renderSteps exampleSteps =
        String.join ((sortedKeys exampleSteps).map (rowFor exampleSteps)) ∧
      (sortedKeys exampleSteps).Nodup :=
  ⟨by decide, (claim_C8 exampleSteps (by decide)).1,
    (claim_C8 exampleSteps (by decide)).2.1⟩

/-- The state reached by the page after ready fires with URL parameter
id "42": used to witness the reachability-based claims. -/
def afterReadyState : PageState :=
  { initState with
    readyDone := true
    program_id := some "42"
    requests := [Request.getProgram "42"]
    programCb := true }

/-- C10: along any page run, once ready has fired with URL parameter
`idp`, the `program_id` global holds exactly `idp`; the program GET that
was issued, and every program DELETE ever issued, interpolate that same
string verbatim into the path `program/{idp}` — so the program deleted
is always the program fetched for display. -/
theorem claim_C10 (es : List Event) (s : PageState) (idp : String)
    (hr : Reaches es s) (hready : Event.ready idp ∈ es) :
    s.program_id = some idp ∧
      Request.getProgram idp ∈ s.requests ∧
      (∀ i, Request.getProgram i ∈ s.requests → i = idp) ∧
      (∀ j, Request.deleteProgram j ∈ s.requests → j = idp) ∧
      reqLine (Request.getProgram idp) = ("GET", "program/" ++ idp) ∧
      reqLine (Request.deleteProgram idp) = ("DELETE", "program/" ++ idp) := by
  obtain ⟨h1, h2, h3, h4, h5⟩ := after_ready es s idp hr hready
  exact ⟨h2, h3, h4, h5, rfl, rfl⟩

theorem claim_C10_witness :
    afterReadyState.program_id = some "42" ∧
      Request.getProgram "42" ∈ afterReadyState.requests ∧
      reqLine (Request.getProgram "42") = ("GET", "program/" ++ "42") :=
  ⟨(claim_C10 [Event.ready "42"] afterReadyState "42" rfl (by decide)).1,
    (claim_C10 [Event.ready "42"] afterReadyState "42" rfl (by decide)).2.1,
    (claim_C10 [Event.ready "42"] afterReadyState "42" rfl (by decide)).2.2.2.2.1⟩

/-- C6: if the program GET never succeeds — the trace contains no program
success event — then no driver GET is ever issued and the steps table
region stays in its pre-render empty state. -/
theorem claim_C6 (es : List Event) (s : PageState)
    (hr : Reaches es s) (hnp : ∀ r : ProgramResp, Event.programSuccess r ∉ es) :
    (∀ d, Request.getDriver d ∉ s.requests) ∧ s.program_details = none := by
  refine preservedAvoid
    (fun t => (∀ d, Request.getDriver d ∉ t.requests) ∧ t.program_details = none)
    (fun e => ∃ r, e = Event.programSuccess r)
    ?_ es initState s
    (by intro e he h; obtain ⟨r, rfl⟩ := h; exact hnp r he)
    ⟨by simp [initState], rfl⟩ hr
  intro t e t2 hbad hP hs
  obtain ⟨hP1, hP2⟩ := hP
  cases e with
  | ready idp =>
      simp only [step] at hs
      split at hs
      · exact absurd hs (by simp)
      · injection hs with h; subst h
        refine ⟨?_, hP2⟩
        intro d hd
        simp only [List.mem_append, List.mem_singleton] at hd
        rcases hd with hd | hd
        · exact hP1 d hd
        · exact absurd hd (by simp)
  | programSuccess r => exact absurd ⟨r, rfl⟩ hbad
  | driverSuccess r =>
      simp only [step] at hs
      split at hs
      · injection hs with h; subst h; exact ⟨hP1, hP2⟩
      · exact absurd hs (by simp)
  | deleteClick c =>
      simp only [step] at hs
      split at hs
      · cases c with
        | true =>
            rw [if_pos rfl] at hs
            injection hs with h; subst h
            refine ⟨?_, hP2⟩
            intro d hd
            simp only [List.mem_append, List.mem_singleton] at hd
            rcases hd with hd | hd
            · exact hP1 d hd
            · exact absurd hd (by simp)
        | false =>
            rw [if_neg (by simp)] at hs
            injection hs with h; subst h; exact ⟨hP1, hP2⟩
      · exact absurd hs (by simp)
  | deleteSuccess =>
      simp only [step] at hs
      split at hs
      · split at hs
        · injection hs with h; subst h; exact ⟨hP1, hP2⟩
        · injection hs with h; subst h; exact ⟨hP1, hP2⟩
      · exact absurd hs (by simp)

theorem claim_C6_witness :
    Request.getDriver "7" ∉ afterReadyState.requests ∧
      afterReadyState.program_details = none :=
  ⟨(claim_C6 [Event.ready "42"] afterReadyState rfl
      (by intro r h; simp at h)).1 "7",
    (claim_C6 [Event.ready "42"] afterReadyState rfl
      (by intro r h; simp at h)).2⟩

/-- C4: from any state whose trace saw ready (URL parameter `idp`) and a
successful program fetch with response `r`, clicking delete and
accepting the confirmation issues exactly one further request, `DELETE`
to path `program/{idp}`; when that request succeeds, the browser
location becomes `/program?user={scientist}` with the scientist captured
from the program response. -/
theorem claim_C4 (es : List Event) (s : PageState) (idp : String) (r : ProgramResp)
    (hr : Reaches es s) (hready : Event.ready idp ∈ es)
    (hprog : Event.programSuccess r ∈ es) :
    (step s (Event.deleteClick true)).map PageState.requests =
        some (s.requests ++ [Request.deleteProgram idp]) ∧
      reqLine (Request.deleteProgram idp) = ("DELETE", "program/" ++ idp) ∧
      ((step s (Event.deleteClick true)).bind
          (fun s1 => step s1 Event.deleteSuccess)).map PageState.location =
        some (some ("/program?user=" ++ r.scientist)) := by
  obtain ⟨hrd, hpid, _, _, _⟩ := after_ready es s idp hr hready
  obtain ⟨_, _, hsci⟩ := after_programSuccess es s r hr hprog
  have h1 : step s (Event.deleteClick true) = some { s with
      requests := s.requests ++ [Request.deleteProgram idp],
      deleteCb := s.deleteCb + 1 } := by
    simp [step, hrd, hpid, jsStr]
  refine ⟨by rw [h1]; rfl, rfl, ?_⟩
  rw [h1]
  have h2 : ((step { s with
      requests := s.requests ++ [Request.deleteProgram idp],
      deleteCb := s.deleteCb + 1 } Event.deleteSuccess).map PageState.location) =
      some (some ("/program?user=" ++ r.scientist)) := by
    simp only [step]
    rw [if_pos (Nat.succ_ne_zero s.deleteCb)]
    have hsc1 : ({ s with
        requests := s.requests ++ [Request.deleteProgram idp],
        deleteCb := s.deleteCb + 1 } : PageState).scientist = some r.scientist := hsci
    rw [hsc1]
    rfl
  exact h2

/-- The state of the C7 example run just before the driver response:
ready fired with id "42" and the program fetch succeeded. -/
def afterProgramState : PageState :=
  { program_id := some "42"
    scientist := some "alice"
    title := some "Bake"
    driver_name := none
    program_details := some "<tr><td>1</td><td>Hold at 180&deg;C</td></tr>"
    requests := [Request.getProgram "42", Request.getDriver "7"]
    location := none
    readyDone := true
    programCb := false
    driverCb := true
    deleteCb := 0 }

theorem claim_C4_witness :
    (step afterProgramState (Event.deleteClick true)).map PageState.requests =
        some (afterProgramState.requests ++ [Request.deleteProgram "42"]) ∧
      reqLine (Request.deleteProgram "42") = ("DELETE", "program/" ++ "42") ∧
      ((step afterProgramState (Event.deleteClick true)).bind
          (fun s1 => step s1 Event.deleteSuccess)).map PageState.location =
        some (some ("/program?user=" ++ "alice")) :=
  claim_C4 [Event.ready "42", Event.programSuccess exampleProgram]
    afterProgramState "42" exampleProgram rfl (by decide) (by decide)

end ManageProgram
